import Mathlib

set_option autoImplicit false

/-!
Shallow embedding of the staged NLP pipeline core
(`src/pipeline/document.py`, `src/pipeline/errors.py`, `src/pipeline/steps.py`,
`src/pipeline/pipeline.py`, and `src/tagger/simple_unigram_tagger.py`).

Python's in-place mutation of `TextDocument` is modelled by explicit state
passing: each operation takes the document and returns the updated document
together with the exception it raised, if any.  Exceptions are modelled by the
`Exc` inductive: `invalidPipeline` is the repository's `InvalidPipelineError`;
`valueError` and `otherError` stand for Python built-in exceptions that the
core may surface or wrap.
-/

namespace PipelineSpec

/-- Opaque stand-in for `nltk.tree.Tree` values: a labelled node with children.
The pipeline core never inspects trees; it only stores them. -/
inductive Tree where
  | node (label : String) (children : List Tree)

/-- What `TextDocument.parse_tree` can hold after a `ParserStep` ran:
either a single tree (stored directly) or an ordered list of trees
(ambiguous parse). -/
inductive ParseVal where
  | tree (t : Tree)
  | trees (ts : List Tree)

/-- `document.py`: `TextDocument` with fields `text`, `tokens`, `tags`,
`parse_tree`.  `parse_tree` is `None` initially, modelled as `none`. -/
structure TextDocument where
  text : String
  tokens : List String
  tags : List (String × String)
  parse_tree : Option ParseVal

/-- `TextDocument.__init__`: only `text` is set; the derived fields start
empty. -/
def TextDocument.mkNew (text : String) : TextDocument :=
  { text := text, tokens := [], tags := [], parse_tree := none }

/-- Exceptions: `invalidPipeline` is `errors.InvalidPipelineError`;
`valueError` is Python's built-in `ValueError`; `otherError` is any other
non-domain exception.  The payload is the exception's message (`str(e)`). -/
inductive Exc where
  | invalidPipeline (msg : String)
  | valueError (msg : String)
  | otherError (msg : String)
deriving DecidableEq

/-- `str(e)` for our exception model. -/
def Exc.message : Exc → String
  | .invalidPipeline m => m
  | .valueError m => m
  | .otherError m => m

/-- `isinstance(e, InvalidPipelineError)`. -/
def Exc.isInvalidPipelineError : Exc → Bool
  | .invalidPipeline _ => true
  | _ => false

/-- What `ParserI.parse` may return (`steps.py` lines 102-109): `None`, a
single `Tree`, or an iterable of trees. -/
inductive ParseOut where
  | null
  | single (t : Tree)
  | iter (ts : List Tree)

/-- `input_data` handed to the parser capability: either `doc.tags`
(when non-empty) or `doc.tokens`. -/
inductive ParserInput where
  | fromTags (tags : List (String × String))
  | fromTokens (tokens : List String)

/-- The concrete `PipelineStep` subclasses, each wrapping one capability.
Capabilities may raise: they return `Except Exc`.  `other` models a further
`PipelineStep` subclass unknown to the validator (carrying its class name). -/
inductive StepImpl where
  | tokenizer (f : String → Except Exc (List String))
  | tagger (f : List String → Except Exc (List (String × String)))
  | parser (f : ParserInput → Except Exc ParseOut)
  | other (name : String) (f : TextDocument → Except Exc TextDocument)

/-- A pipeline step: Python object identity is modelled by the `id` field
(two distinct Python objects have distinct ids). -/
structure Step where
  id : Nat
  impl : StepImpl

/-- The step kinds the validator's `isinstance` checks distinguish. -/
inductive StepKind where
  | tokenizer
  | tagger
  | parser
  | other
deriving DecidableEq

/-- The kind of a step, as `isinstance` would classify it. -/
def Step.kind (s : Step) : StepKind :=
  match s.impl with
  | .tokenizer _ => .tokenizer
  | .tagger _ => .tagger
  | .parser _ => .parser
  | .other _ _ => .other

/-- `step.__class__.__name__`. -/
def Step.className (s : Step) : String :=
  match s.impl with
  | .tokenizer _ => "TokenizerStep"
  | .tagger _ => "TaggerStep"
  | .parser _ => "ParserStep"
  | .other n _ => n

/-- `steps.py` lines 104-109: normalize the parser's return value into the
local list `parse_trees`. -/
def parseTreesOf : ParseOut → List Tree
  | .null => []
  | .single t => [t]
  | .iter ts => ts

/-- `steps.py` line 96: `input_data = doc.tags if doc.tags else doc.tokens`. -/
def parserInputOf (doc : TextDocument) : ParserInput :=
  if doc.tags.isEmpty then .fromTokens doc.tokens else .fromTags doc.tags

/-- The `process(doc)` method of each concrete step (`steps.py`).  Returns the
document after the call together with the exception raised, if any.  In the
source every `process` either raises before assigning to `doc` or completes
all its assignments, so a failing call leaves the document exactly as it was. -/
def processStep (s : Step) (doc : TextDocument) : TextDocument × Option Exc :=
  match s.impl with
  | .tokenizer f =>
    match f doc.text with
    | .error e => (doc, some e)
    | .ok toks => ({ doc with tokens := toks, tags := [], parse_tree := none }, none)
  | .tagger f =>
    if doc.tokens.isEmpty then
      (doc, some (.invalidPipeline "TaggerStep cannot run because TextDocument.tokens is empty."))
    else
      match f doc.tokens with
      | .error e => (doc, some e)
      | .ok tgs => ({ doc with tags := tgs, parse_tree := none }, none)
  | .parser f =>
    if doc.tokens.isEmpty && doc.tags.isEmpty then
      (doc, some (.invalidPipeline "ParserStep cannot run because there are no tokens or tags in TextDocument."))
    else
      match f (parserInputOf doc) with
      | .error e => (doc, some (.invalidPipeline ("ParserStep failed to parse input: " ++ e.message)))
      | .ok r =>
        match parseTreesOf r with
        | [] => (doc, some (.invalidPipeline "ParserStep did not produce any parse tree for the given input."))
        | [t] => ({ doc with parse_tree := some (.tree t) }, none)
        | t1 :: t2 :: rest => ({ doc with parse_tree := some (.trees (t1 :: t2 :: rest)) }, none)
  | .other _ f =>
    match f doc with
    | .error e => (doc, some e)
    | .ok d => (d, none)

/-- `Pipeline.add_step`: append at the end. -/
def add_step (steps : List Step) (s : Step) : List Step :=
  steps ++ [s]

/-- `Pipeline.remove_step`, i.e. `self.steps.remove(step)`: removes the first
element identical to `step`; raises Python's built-in `ValueError` with
CPython's message when the step is absent. -/
def remove_step : List Step → Step → Except Exc (List Step)
  | [], _ => .error (.valueError "list.remove(x): x not in list")
  | t :: rest, s =>
    if t.id = s.id then .ok rest
    else
      match remove_step rest s with
      | .ok rest' => .ok (t :: rest')
      | .error e => .error e

/-- `pipeline.py` line 85. -/
def emptyPipelineExc : Exc :=
  .invalidPipeline "Pipeline is empty and has no steps to execute."

/-- `pipeline.py` line 94. -/
def dupTokenizerExc : Exc :=
  .invalidPipeline "Pipeline contains multiple TokenizerStep instances, which is not supported."

/-- `pipeline.py` line 99. -/
def dupTaggerExc : Exc :=
  .invalidPipeline "Pipeline contains multiple TaggerStep instances, which is not supported."

/-- `pipeline.py` line 104. -/
def dupParserExc : Exc :=
  .invalidPipeline "Pipeline contains multiple ParserStep instances, which is not supported."

/-- `pipeline.py` line 108. -/
def ordTokTagExc : Exc :=
  .invalidPipeline "TokenizerStep must come before TaggerStep in the pipeline."

/-- `pipeline.py` line 110. -/
def ordTokParExc : Exc :=
  .invalidPipeline "TokenizerStep must come before ParserStep in the pipeline."

/-- `pipeline.py` line 112. -/
def ordTagParExc : Exc :=
  .invalidPipeline "TaggerStep must come before ParserStep in the pipeline."

/-- `pipeline.py` line 119. -/
def firstTaggerExc : Exc :=
  .invalidPipeline "Pipeline starts with TaggerStep, but TextDocument.tokens is empty (no tokens to tag)."

/-- `pipeline.py` line 123. -/
def firstParserExc : Exc :=
  .invalidPipeline "Pipeline starts with ParserStep, but TextDocument has no tokens or tags to parse."

/-- `pipeline.py` line 128. -/
def noTokTaggerExc : Exc :=
  .invalidPipeline "No TokenizerStep in pipeline, but a TaggerStep is present and TextDocument.tokens is empty."

/-- `pipeline.py` line 130. -/
def noTokParserExc : Exc :=
  .invalidPipeline "No TokenizerStep in pipeline, but a ParserStep is present and TextDocument has no tokens or tags."

/-- The single `for i, step in enumerate(steps)` loop of `_validate_pipeline`
(`pipeline.py` lines 88-104): records the first index of each kind and raises
a duplicate error at the second occurrence of a kind, whichever second
occurrence comes first in the sequence. -/
def scanSteps : List Step → Option Nat → Option Nat → Option Nat → Nat →
    Except Exc (Option Nat × Option Nat × Option Nat)
  | [], it, ig, ip, _ => .ok (it, ig, ip)
  | s :: rest, it, ig, ip, i =>
    match s.kind with
    | .tokenizer =>
      match it with
      | none => scanSteps rest (some i) ig ip (i + 1)
      | some _ => .error dupTokenizerExc
    | .tagger =>
      match ig with
      | none => scanSteps rest it (some i) ip (i + 1)
      | some _ => .error dupTaggerExc
    | .parser =>
      match ip with
      | none => scanSteps rest it ig (some i) (i + 1)
      | some _ => .error dupParserExc
    | .other => scanSteps rest it ig ip (i + 1)

/-- `idx_a is not None and idx_b is not None and idx_a > idx_b`. -/
def optGT : Option Nat → Option Nat → Bool
  | some a, some b => decide (b < a)
  | _, _ => false

/-- `pipeline.py` lines 115-123: the first-step input checks. -/
def firstStepCheck (first : Step) (doc : TextDocument) : Except Exc Unit :=
  match first.kind with
  | .tagger => if doc.tokens.isEmpty then .error firstTaggerExc else .ok ()
  | .parser =>
    if doc.tokens.isEmpty && doc.tags.isEmpty then .error firstParserExc else .ok ()
  | _ => .ok ()

/-- `pipeline.py` lines 126-130: the checks applied when no `TokenizerStep`
is present. -/
def noTokenizerCheck (it ig ip : Option Nat) (doc : TextDocument) : Except Exc Unit :=
  match it with
  | some _ => .ok ()
  | none =>
    if ig.isSome && doc.tokens.isEmpty then .error noTokTaggerExc
    else if ip.isSome && doc.tokens.isEmpty && doc.tags.isEmpty then .error noTokParserExc
    else .ok ()

/-- `PipelineController._validate_pipeline` (`pipeline.py` lines 77-130). -/
def validate_pipeline (steps : List Step) (doc : TextDocument) : Except Exc Unit :=
  match steps with
  | [] => .error emptyPipelineExc
  | first :: _ =>
    match scanSteps steps none none none 0 with
    | .error e => .error e
    | .ok (it, ig, ip) =>
      if optGT it ig then .error ordTokTagExc
      else if optGT it ip then .error ordTokParExc
      else if optGT ig ip then .error ordTagParExc
      else
        match firstStepCheck first doc with
        | .error e => .error e
        | .ok _ => noTokenizerCheck it ig ip doc

/-- The execution loop of `PipelineController.run` (`pipeline.py` lines
63-73): run each step; a raised `InvalidPipelineError` propagates unchanged,
any other exception is wrapped once with the failing step's class name. -/
def runLoop : List Step → TextDocument → TextDocument × Option Exc
  | [], doc => (doc, none)
  | s :: rest, doc =>
    match processStep s doc with
    | (doc', none) => runLoop rest doc'
    | (doc', some e) =>
      if e.isInvalidPipelineError then (doc', some e)
      else (doc', some (.invalidPipeline ("Error in " ++ s.className ++ ": " ++ e.message)))

/-- `PipelineController.run` (`pipeline.py` lines 52-75): validate first,
then execute.  Returns the document state at the end of the call together
with the exception raised, if any. -/
def run (steps : List Step) (doc : TextDocument) : TextDocument × Option Exc :=
  match validate_pipeline steps doc with
  | .error e => (doc, some e)
  | .ok _ => runLoop steps doc

/-- `dict.get` on the tagger's model (`simple_unigram_tagger.py`), the model
being a finite map from words to labels. -/
def modelGet : List (String × String) → String → Option String
  | [], _ => none
  | (k, v) :: rest, w => if k = w then some v else modelGet rest w

/-- `UnigramTagger.tag_text` (`simple_unigram_tagger.py` lines 5-7):
`[(word, self.model.get(word, 'NN')) for word in text]`. -/
def tag_text (model : List (String × String)) (text : List String) :
    List (String × String) :=
  text.map (fun word => (word, (modelGet model word).getD "NN"))

/-- Number of steps of a given kind in a sequence. -/
def countKind (k : StepKind) : List Step → Nat
  | [] => 0
  | s :: rest => (if s.kind = k then 1 else 0) + countKind k rest

/-- `appearsAfterKind k1 k2 steps` holds when some step of kind `k1` occurs
strictly after some step of kind `k2` in the sequence. -/
def appearsAfterKind (k1 k2 : StepKind) : List Step → Bool
  | [] => false
  | s :: rest =>
    (decide (s.kind = k2) && rest.any (fun t => decide (t.kind = k1)))
      || appearsAfterKind k1 k2 rest

/-- First index (counting from `i`) of a step of kind `k`. -/
def firstIdxFrom (k : StepKind) : List Step → Nat → Option Nat
  | [], _ => none
  | s :: rest, i => if s.kind = k then some i else firstIdxFrom k rest (i + 1)

/-- Left-biased choice on the scan state. -/
def stOr : Option Nat → Option Nat → Option Nat
  | some a, _ => some a
  | none, x => x

/-- The kind whose second occurrence the validator's scan hits first, given
which kinds were already seen: mirrors the duplicate detection of the
`enumerate` loop in `_validate_pipeline`. -/
def firstDupAux : List Step → Bool → Bool → Bool → Option StepKind
  | [], _, _, _ => none
  | s :: rest, bt, bg, bp =>
    match s.kind with
    | .tokenizer => if bt then some .tokenizer else firstDupAux rest true bg bp
    | .tagger => if bg then some .tagger else firstDupAux rest bt true bp
    | .parser => if bp then some .parser else firstDupAux rest bt bg true
    | .other => firstDupAux rest bt bg bp

/-- The kind whose second occurrence appears earliest in the sequence
(the duplicate the validator reports), if any kind is duplicated. -/
def firstDupKind (steps : List Step) : Option StepKind :=
  firstDupAux steps false false false

/-- The duplicate-stage error message for a kind.  The `other` case is
unreachable: the scan never reports a duplicate for unknown step classes. -/
def dupExcOf : StepKind → Exc
  | .tokenizer => dupTokenizerExc
  | .tagger => dupTaggerExc
  | .parser => dupParserExc
  | .other => dupTokenizerExc

/-- A tokenizer capability that always succeeds. -/
def trivialTokCap : String → Except Exc (List String) :=
  fun _ => .ok ["tok"]

/-- A tokenizer capability that raises a non-domain exception, like the
`ValueError("Random crash")` used in the coverage tests. -/
def failingTokCap : String → Except Exc (List String) :=
  fun _ => .error (.otherError "Random crash")

/-- A tagger capability labelling every token `DUMMY`, as in the tests. -/
def trivialTagCap : List String → Except Exc (List (String × String)) :=
  fun toks => .ok (toks.map (fun t => (t, "DUMMY")))

/-- A one-node tree. -/
def leafTree : Tree :=
  .node "S" []

/-- A parser capability returning a single tree. -/
def singleParseCap : ParserInput → Except Exc ParseOut :=
  fun _ => .ok (.single leafTree)

/-- A parser capability returning an empty iterable of trees. -/
def emptyIterParseCap : ParserInput → Except Exc ParseOut :=
  fun _ => .ok (.iter [])

def tokStepA : Step := { id := 0, impl := .tokenizer trivialTokCap }

def tokStepB : Step := { id := 1, impl := .tokenizer trivialTokCap }

def tagStepA : Step := { id := 2, impl := .tagger trivialTagCap }

def tagStepB : Step := { id := 3, impl := .tagger trivialTagCap }

/-- A document pre-populated with tokens, tags and a parse tree. -/
def docPre : TextDocument :=
  { text := "Testing the NLP pipeline.",
    tokens := ["old"],
    tags := [("old", "NN")],
    parse_tree := some (.tree leafTree) }

/-! ## Theorems -/

/-- C5: for every document whose `tokens` (segments) field is empty, running a
`TaggerStep` (Annotator) fails with the `EmptyInputError`-style
`InvalidPipelineError` and leaves the document — in particular its
`parse_tree` (structure) field — unchanged. -/
theorem C5_annotator_empty_segments (f : List String → Except Exc (List (String × String)))
    (i : Nat) (doc : TextDocument) (h : doc.tokens = []) :
    processStep { id := i, impl := .tagger f } doc =
      (doc, some (.invalidPipeline "TaggerStep cannot run because TextDocument.tokens is empty."))
    ∧ (processStep { id := i, impl := .tagger f } doc).1.parse_tree = doc.parse_tree := by
  have hemp : doc.tokens.isEmpty = true := by simp [h]
  constructor
  · simp [processStep, hemp]
  · simp [processStep, hemp]

theorem C5_annotator_empty_segments_witness :
    ({ text := "x", tokens := [], tags := [], parse_tree := some (.tree leafTree) } : TextDocument).tokens = []
    ∧ (processStep { id := 9, impl := .tagger trivialTagCap }
        { text := "x", tokens := [], tags := [], parse_tree := some (.tree leafTree) } =
        ({ text := "x", tokens := [], tags := [], parse_tree := some (.tree leafTree) },
          some (.invalidPipeline "TaggerStep cannot run because TextDocument.tokens is empty."))
      ∧ (processStep { id := 9, impl := .tagger trivialTagCap }
          { text := "x", tokens := [], tags := [], parse_tree := some (.tree leafTree) }).1.parse_tree =
        ({ text := "x", tokens := [], tags := [], parse_tree := some (.tree leafTree) } : TextDocument).parse_tree) :=
  ⟨rfl, C5_annotator_empty_segments trivialTagCap 9
    { text := "x", tokens := [], tags := [], parse_tree := some (.tree leafTree) } rfl⟩

/-- C6: whenever a `TokenizerStep` (Segmenter) `process` call returns without
raising, the resulting document has empty `tags` (annotations) and no
`parse_tree` (structure), regardless of what those fields held before. -/
theorem C6_segmenter_clears (f : String → Except Exc (List String)) (i : Nat)
    (doc doc' : TextDocument)
    (h : processStep { id := i, impl := .tokenizer f } doc = (doc', none)) :
    doc'.tags = [] ∧ doc'.parse_tree = none := by
  simp only [processStep] at h
  cases hf : f doc.text with
  | error e => rw [hf] at h; simp at h
  | ok toks =>
    rw [hf] at h
    simp only [Prod.mk.injEq] at h
    rw [← h.1]
    exact ⟨rfl, rfl⟩

theorem C6_segmenter_clears_witness :
    ({ docPre with tokens := ["tok"], tags := [], parse_tree := none } : TextDocument).tags = []
    ∧ ({ docPre with tokens := ["tok"], tags := [], parse_tree := none } : TextDocument).parse_tree = none :=
  C6_segmenter_clears trivialTokCap 0 docPre
    { docPre with tokens := ["tok"], tags := [], parse_tree := none } rfl

/-- C7: if validation fails, `run` surfaces the validation error without
executing any stage, and the document is returned untouched — every field
(`text`, `tokens`, `tags`, `parse_tree`) equals its value before the call. -/
theorem C7_validation_failure_frame (steps : List Step) (doc : TextDocument) (e : Exc)
    (hval : validate_pipeline steps doc = .error e) :
    run steps doc = (doc, some e)
    ∧ (run steps doc).1.text = doc.text
    ∧ (run steps doc).1.tokens = doc.tokens
    ∧ (run steps doc).1.tags = doc.tags
    ∧ (run steps doc).1.parse_tree = doc.parse_tree := by
  have hr : run steps doc = (doc, some e) := by simp [run, hval]
  exact ⟨hr, by rw [hr], by rw [hr], by rw [hr], by rw [hr]⟩

theorem C7_validation_failure_frame_witness :
    run [] docPre = (docPre, some emptyPipelineExc)
    ∧ (run [] docPre).1.text = docPre.text
    ∧ (run [] docPre).1.tokens = docPre.tokens
    ∧ (run [] docPre).1.tags = docPre.tags
    ∧ (run [] docPre).1.parse_tree = docPre.parse_tree :=
  C7_validation_failure_frame [] docPre emptyPipelineExc rfl

/-- C4: with the Analyzer's input precondition satisfied, a `ParserStep`
normalizes its capability's result: a `None` result raises the
`NoResultError`-style message and leaves `parse_tree` unwritten; exactly one
resulting tree is stored directly; `N > 1` trees are stored as the ordered
list the capability produced (length and order preserved). -/
theorem C4_analyzer_result_normalization (f : ParserInput → Except Exc ParseOut)
    (i : Nat) (doc : TextDocument) (r : ParseOut)
    (hpre : (doc.tokens.isEmpty && doc.tags.isEmpty) = false)
    (hr : f (parserInputOf doc) = .ok r) :
    (r = .null →
      processStep { id := i, impl := .parser f } doc =
        (doc, some (.invalidPipeline "ParserStep did not produce any parse tree for the given input.")))
    ∧ (∀ t, parseTreesOf r = [t] →
        processStep { id := i, impl := .parser f } doc =
          ({ doc with parse_tree := some (.tree t) }, none))
    ∧ (∀ t1 t2 ts, parseTreesOf r = t1 :: t2 :: ts →
        processStep { id := i, impl := .parser f } doc =
          ({ doc with parse_tree := some (.trees (t1 :: t2 :: ts)) }, none)) := by
  refine ⟨?_, ?_, ?_⟩
  · intro hnull; subst hnull
    simp [processStep, hpre, hr, parseTreesOf]
  · intro t ht
    simp [processStep, hpre, hr, ht]
  · intro t1 t2 ts ht
    simp [processStep, hpre, hr, ht]

theorem C4_analyzer_result_normalization_witness :
    (docPre.tokens.isEmpty && docPre.tags.isEmpty) = false
    ∧ processStep { id := 4, impl := .parser singleParseCap } docPre =
        ({ docPre with parse_tree := some (.tree leafTree) }, none) :=
  ⟨rfl, (C4_analyzer_result_normalization singleParseCap 4 docPre (.single leafTree)
    rfl rfl).2.1 leafTree rfl⟩

/-- C10: a capability result that is an empty iterable of trees triggers the
same `NoResultError`-style message as a `None` result, and `parse_tree` is
left unchanged. -/
theorem C10_empty_iterable_no_result (f : ParserInput → Except Exc ParseOut)
    (i : Nat) (doc : TextDocument)
    (hpre : (doc.tokens.isEmpty && doc.tags.isEmpty) = false)
    (hr : f (parserInputOf doc) = .ok (.iter [])) :
    processStep { id := i, impl := .parser f } doc =
      (doc, some (.invalidPipeline "ParserStep did not produce any parse tree for the given input.")) := by
  simp [processStep, hpre, hr, parseTreesOf]

theorem C10_empty_iterable_no_result_witness :
    (docPre.tokens.isEmpty && docPre.tags.isEmpty) = false
    ∧ processStep { id := 5, impl := .parser emptyIterParseCap } docPre =
        (docPre,
          some (.invalidPipeline "ParserStep did not produce any parse tree for the given input.")) :=
  ⟨rfl, C10_empty_iterable_no_result emptyIterParseCap 5 docPre rfl rfl⟩

/-- C9 counterexample: `tag_text` labels a word absent from the model with the
hardcoded label `NN`; no caller-chosen default exists, so the claim that an
unseen unit gets an arbitrary caller-supplied label (here `X`) is false. -/
theorem C9_counterexample :
    tag_text [] ["fox"] = [("fox", "NN")] ∧ tag_text [] ["fox"] ≠ [("fox", "X")] := by
  constructor
  · rfl
  · decide

/-- C9 amended: when the model is dictionary-like, every unit absent from the
model is labelled with the fixed default label `NN` (hardcoded in
`tag_text`, not supplied by the caller). -/
theorem C9_default_label_fixed (model : List (String × String)) (text : List String)
    (w : String) (hw : w ∈ text) (hunseen : modelGet model w = none) :
    (w, "NN") ∈ tag_text model text := by
  refine List.mem_map.mpr ⟨w, hw, ?_⟩
  simp [hunseen]

theorem C9_default_label_fixed_witness :
    "fox" ∈ ["fox"] ∧ modelGet [] "fox" = none
    ∧ ("fox", "NN") ∈ tag_text [] ["fox"] :=
  ⟨by decide, rfl, C9_default_label_fixed [] ["fox"] "fox" (by decide) rfl⟩

/-- C8 counterexample: removing a step from an empty sequence raises Python's
built-in `ValueError`, which is not an instance of the pipeline's error kind
`InvalidPipelineError`. -/
theorem C8_counterexample :
    remove_step [] tokStepA = .error (.valueError "list.remove(x): x not in list")
    ∧ (Exc.valueError "list.remove(x): x not in list").isInvalidPipelineError = false :=
  ⟨rfl, rfl⟩

/-- C8 amended: for every stage sequence and stage not present in it (by
identity), `remove_step` fails — but with the built-in
`ValueError("list.remove(x): x not in list")`, which is not an
`InvalidPipelineError`: the single-error-kind rule does not hold here. -/
theorem C8_remove_absent_value_error (steps : List Step) (s : Step)
    (h : ∀ t ∈ steps, t.id ≠ s.id) :
    remove_step steps s = .error (.valueError "list.remove(x): x not in list")
    ∧ ∀ e, remove_step steps s = .error e → e.isInvalidPipelineError = false := by
  have main : remove_step steps s = .error (.valueError "list.remove(x): x not in list") := by
    induction steps with
    | nil => rfl
    | cons t rest ih =>
      have hne : t.id ≠ s.id := h t (List.mem_cons_self t rest)
      have ih' := ih (fun u hu => h u (List.mem_cons_of_mem t hu))
      simp [remove_step, hne, ih']
  refine ⟨main, fun e he => ?_⟩
  rw [main] at he
  injection he with h2
  rw [← h2]
  rfl

theorem C8_remove_absent_value_error_witness :
    (∀ t ∈ [tokStepA], t.id ≠ tagStepA.id)
    ∧ remove_step [tokStepA] tagStepA = .error (.valueError "list.remove(x): x not in list")
    ∧ ∀ e, remove_step [tokStepA] tagStepA = .error e → e.isInvalidPipelineError = false := by
  have h : ∀ t ∈ [tokStepA], t.id ≠ tagStepA.id := by decide
  exact ⟨h, C8_remove_absent_value_error [tokStepA] tagStepA h⟩

/-- Running a prefix that succeeds and then the remaining steps is the same
as running the remaining steps from the intermediate document. -/
theorem runLoop_append_of_ok (pre rest : List Step) (doc doc' : TextDocument)
    (h : runLoop pre doc = (doc', none)) :
    runLoop (pre ++ rest) doc = runLoop rest doc' := by
  induction pre generalizing doc with
  | nil =>
    simp only [runLoop, Prod.mk.injEq] at h
    rw [List.nil_append, h.1]
  | cons p pre' ih =>
    rcases hproc : processStep p doc with ⟨d1, oe⟩
    cases oe with
    | none =>
      rw [List.cons_append]
      simp only [runLoop, hproc]
      simp only [runLoop, hproc] at h
      exact ih d1 h
    | some e =>
      simp only [runLoop, hproc] at h
      split at h <;> simp at h

/-- C3: when a stage's `process` raises during execution, `run` surfaces
exactly one error: a non-domain error is re-raised as an
`InvalidPipelineError` whose message is `"Error in <class name>: <original
message>"` (containing the concrete stage's kind and the original message
verbatim), while an `InvalidPipelineError` raised by the stage propagates
unchanged, never wrapped a second time. -/
theorem C3_execution_error_wrapping (pre post : List Step) (s : Step)
    (doc doc' : TextDocument) (e : Exc)
    (hval : validate_pipeline (pre ++ s :: post) doc = .ok ())
    (hpre : runLoop pre doc = (doc', none))
    (herr : (processStep s doc').2 = some e) :
    (run (pre ++ s :: post) doc).2 =
      some (if e.isInvalidPipelineError then e
        else .invalidPipeline ("Error in " ++ s.className ++ ": " ++ e.message)) := by
  have hrun : run (pre ++ s :: post) doc = runLoop (pre ++ s :: post) doc := by
    simp [run, hval]
  rw [hrun, runLoop_append_of_ok pre (s :: post) doc doc' hpre]
  rcases hproc : processStep s doc' with ⟨d2, oe⟩
  rw [hproc] at herr
  simp only at herr
  subst herr
  simp only [runLoop, hproc]
  by_cases hc : e.isInvalidPipelineError <;> simp [hc]

theorem C3_execution_error_wrapping_witness :
    validate_pipeline ([] ++ { id := 7, impl := .tokenizer failingTokCap } :: []) (TextDocument.mkNew "x") = .ok ()
    ∧ runLoop [] (TextDocument.mkNew "x") = (TextDocument.mkNew "x", none)
    ∧ (processStep { id := 7, impl := .tokenizer failingTokCap } (TextDocument.mkNew "x")).2 =
        some (.otherError "Random crash")
    ∧ (run ([] ++ { id := 7, impl := .tokenizer failingTokCap } :: []) (TextDocument.mkNew "x")).2 =
        some (if (Exc.otherError "Random crash").isInvalidPipelineError then Exc.otherError "Random crash"
          else .invalidPipeline ("Error in " ++ ({ id := 7, impl := .tokenizer failingTokCap } : Step).className
            ++ ": " ++ (Exc.otherError "Random crash").message)) :=
  ⟨rfl, rfl, rfl,
    C3_execution_error_wrapping [] [] { id := 7, impl := .tokenizer failingTokCap }
      (TextDocument.mkNew "x") (TextDocument.mkNew "x") (.otherError "Random crash") rfl rfl rfl⟩

/-- If the per-kind seen flags match the scan state, the validator's scan
raises the duplicate error of the first duplicate kind in scan order. -/
theorem scanSteps_firstDup (steps : List Step) :
    ∀ (it ig ip : Option Nat) (i : Nat) (k : StepKind),
      firstDupAux steps it.isSome ig.isSome ip.isSome = some k →
      scanSteps steps it ig ip i = .error (dupExcOf k) := by
  induction steps with
  | nil => intro it ig ip i k h; simp [firstDupAux] at h
  | cons s rest ih =>
    intro it ig ip i k h
    cases hk : s.kind with
    | tokenizer =>
      cases it with
      | some a =>
        simp only [firstDupAux, hk, Option.isSome_some, if_true] at h
        injection h with h'
        subst h'
        simp [scanSteps, hk, dupExcOf]
      | none =>
        simp only [firstDupAux, hk, Option.isSome_none, Bool.false_eq_true, if_false] at h
        simp only [scanSteps, hk]
        exact ih (some i) ig ip (i + 1) k (by simpa using h)
    | tagger =>
      cases ig with
      | some a =>
        simp only [firstDupAux, hk, Option.isSome_some, if_true] at h
        injection h with h'
        subst h'
        simp [scanSteps, hk, dupExcOf]
      | none =>
        simp only [firstDupAux, hk, Option.isSome_none, Bool.false_eq_true, if_false] at h
        simp only [scanSteps, hk]
        exact ih it (some i) ip (i + 1) k (by simpa using h)
    | parser =>
      cases ip with
      | some a =>
        simp only [firstDupAux, hk, Option.isSome_some, if_true] at h
        injection h with h'
        subst h'
        simp [scanSteps, hk, dupExcOf]
      | none =>
        simp only [firstDupAux, hk, Option.isSome_none, Bool.false_eq_true, if_false] at h
        simp only [scanSteps, hk]
        exact ih it ig (some i) (i + 1) k (by simpa using h)
    | other =>
      simp only [firstDupAux, hk] at h
      simp only [scanSteps, hk]
      exact ih it ig ip (i + 1) k h

/-- If a kind occurs at least twice (or once with its seen flag already set),
the scan finds a first duplicate. -/
theorem firstDupAux_isSome_of_two (steps : List Step) :
    ∀ (bt bg bp : Bool), (if bt then 1 else 2) ≤ countKind .tokenizer steps →
      (firstDupAux steps bt bg bp).isSome = true := by
  induction steps with
  | nil =>
    intro bt bg bp h
    cases bt <;> simp [countKind] at h
  | cons s rest ih =>
    intro bt bg bp h
    cases hk : s.kind with
    | tokenizer =>
      cases bt with
      | true => simp [firstDupAux, hk]
      | false =>
        have h2 : 1 ≤ countKind .tokenizer rest := by
          simp [countKind, hk] at h
          omega
        simp only [firstDupAux, hk, Bool.false_eq_true, if_false]
        exact ih true bg bp (by simpa using h2)
    | tagger =>
      have hcnt : countKind .tokenizer (s :: rest) = countKind .tokenizer rest := by
        simp [countKind, hk]
      rw [hcnt] at h
      cases bg with
      | true => simp [firstDupAux, hk]
      | false =>
        simp only [firstDupAux, hk, Bool.false_eq_true, if_false]
        exact ih bt true bp h
    | parser =>
      have hcnt : countKind .tokenizer (s :: rest) = countKind .tokenizer rest := by
        simp [countKind, hk]
      rw [hcnt] at h
      cases bp with
      | true => simp [firstDupAux, hk]
      | false =>
        simp only [firstDupAux, hk, Bool.false_eq_true, if_false]
        exact ih bt bg true h
    | other =>
      have hcnt : countKind .tokenizer (s :: rest) = countKind .tokenizer rest := by
        simp [countKind, hk]
      rw [hcnt] at h
      simp only [firstDupAux, hk]
      exact ih bt bg bp h

/-- C1 counterexample: in the sequence `[Tagger, Tagger, Tokenizer,
Tokenizer]` — more than one Annotator and more than one Segmenter —
validation reports the duplicate `TaggerStep`, not the `TokenizerStep`
duplicate the claim requires. -/
theorem C1_counterexample :
    validate_pipeline [tagStepA, tagStepB, tokStepA, tokStepB] (TextDocument.mkNew "x") =
      .error dupTaggerExc
    ∧ dupTaggerExc ≠ dupTokenizerExc :=
  ⟨rfl, by decide⟩

/-- C1 amended: the duplicate checks are a single left-to-right scan, not
three kind-ordered passes; for every sequence containing more than one
Segmenter and more than one Annotator, validation fails with the duplicate
error of the kind whose second occurrence appears earliest in the sequence
(`firstDupKind`), which need not be the Segmenter kind. -/
theorem C1_duplicate_first_in_scan (steps : List Step) (doc : TextDocument)
    (htok : 2 ≤ countKind .tokenizer steps) (htag : 2 ≤ countKind .tagger steps) :
    ∃ k, firstDupKind steps = some k
      ∧ validate_pipeline steps doc = .error (dupExcOf k) := by
  have hsome := firstDupAux_isSome_of_two steps false false false (by simpa using htok)
  obtain ⟨k, hk⟩ := Option.isSome_iff_exists.mp hsome
  refine ⟨k, hk, ?_⟩
  have hscan := scanSteps_firstDup steps none none none 0 k (by simpa using hk)
  cases steps with
  | nil => simp [countKind] at htok
  | cons first rest => simp only [validate_pipeline, hscan]

theorem C1_duplicate_first_in_scan_witness :
    2 ≤ countKind .tokenizer [tagStepA, tagStepB, tokStepA, tokStepB]
    ∧ 2 ≤ countKind .tagger [tagStepA, tagStepB, tokStepA, tokStepB]
    ∧ ∃ k, firstDupKind [tagStepA, tagStepB, tokStepA, tokStepB] = some k
        ∧ validate_pipeline [tagStepA, tagStepB, tokStepA, tokStepB] (TextDocument.mkNew "x") =
            .error (dupExcOf k) :=
  ⟨by decide, by decide,
    C1_duplicate_first_in_scan [tagStepA, tagStepB, tokStepA, tokStepB]
      (TextDocument.mkNew "x") (by decide) (by decide)⟩

theorem stOr_none (o : Option Nat) : stOr o none = o := by
  cases o <;> rfl

/-- When no kind is duplicated (given the seen state), the scan succeeds and
returns the first index of each kind. -/
theorem scanSteps_no_dup (steps : List Step) :
    ∀ (it ig ip : Option Nat) (i : Nat),
      countKind .tokenizer steps + (if it.isSome then 1 else 0) ≤ 1 →
      countKind .tagger steps + (if ig.isSome then 1 else 0) ≤ 1 →
      countKind .parser steps + (if ip.isSome then 1 else 0) ≤ 1 →
      scanSteps steps it ig ip i =
        .ok (stOr it (firstIdxFrom .tokenizer steps i),
             stOr ig (firstIdxFrom .tagger steps i),
             stOr ip (firstIdxFrom .parser steps i)) := by
  induction steps with
  | nil =>
    intro it ig ip i _ _ _
    simp [scanSteps, firstIdxFrom, stOr_none]
  | cons s rest ih =>
    intro it ig ip i ht hg hp
    cases hk : s.kind with
    | tokenizer =>
      have hct : countKind .tokenizer (s :: rest) = 1 + countKind .tokenizer rest := by
        simp [countKind, hk]
      have hcg : countKind .tagger (s :: rest) = countKind .tagger rest := by
        simp [countKind, hk]
      have hcp : countKind .parser (s :: rest) = countKind .parser rest := by
        simp [countKind, hk]
      rw [hct] at ht; rw [hcg] at hg; rw [hcp] at hp
      cases it with
      | some a => simp at ht
      | none =>
        have ht' : countKind .tokenizer rest + (if (some i : Option Nat).isSome then 1 else 0) ≤ 1 := by
          simp at ht ⊢; omega
        simp only [scanSteps, hk]
        rw [ih (some i) ig ip (i + 1) ht' hg hp]
        simp [firstIdxFrom, hk, stOr]
    | tagger =>
      have hct : countKind .tokenizer (s :: rest) = countKind .tokenizer rest := by
        simp [countKind, hk]
      have hcg : countKind .tagger (s :: rest) = 1 + countKind .tagger rest := by
        simp [countKind, hk]
      have hcp : countKind .parser (s :: rest) = countKind .parser rest := by
        simp [countKind, hk]
      rw [hct] at ht; rw [hcg] at hg; rw [hcp] at hp
      cases ig with
      | some a => simp at hg
      | none =>
        have hg' : countKind .tagger rest + (if (some i : Option Nat).isSome then 1 else 0) ≤ 1 := by
          simp at hg ⊢; omega
        simp only [scanSteps, hk]
        rw [ih it (some i) ip (i + 1) ht hg' hp]
        simp [firstIdxFrom, hk, stOr]
    | parser =>
      have hct : countKind .tokenizer (s :: rest) = countKind .tokenizer rest := by
        simp [countKind, hk]
      have hcg : countKind .tagger (s :: rest) = countKind .tagger rest := by
        simp [countKind, hk]
      have hcp : countKind .parser (s :: rest) = 1 + countKind .parser rest := by
        simp [countKind, hk]
      rw [hct] at ht; rw [hcg] at hg; rw [hcp] at hp
      cases ip with
      | some a => simp at hp
      | none =>
        have hp' : countKind .parser rest + (if (some i : Option Nat).isSome then 1 else 0) ≤ 1 := by
          simp at hp ⊢; omega
        simp only [scanSteps, hk]
        rw [ih it ig (some i) (i + 1) ht hg hp']
        simp [firstIdxFrom, hk, stOr]
    | other =>
      have hct : countKind .tokenizer (s :: rest) = countKind .tokenizer rest := by
        simp [countKind, hk]
      have hcg : countKind .tagger (s :: rest) = countKind .tagger rest := by
        simp [countKind, hk]
      have hcp : countKind .parser (s :: rest) = countKind .parser rest := by
        simp [countKind, hk]
      rw [hct] at ht; rw [hcg] at hg; rw [hcp] at hp
      simp only [scanSteps, hk]
      rw [ih it ig ip (i + 1) ht hg hp]
      have hk1 : s.kind ≠ .tokenizer := by rw [hk]; intro hx; cases hx
      have hk2 : s.kind ≠ .tagger := by rw [hk]; intro hx; cases hx
      have hk3 : s.kind ≠ .parser := by rw [hk]; intro hx; cases hx
      simp [firstIdxFrom, hk1, hk2, hk3]

/-- The first index of a kind, counted from `i`, is at least `i`. -/
theorem firstIdxFrom_ge (k : StepKind) (steps : List Step) :
    ∀ (i j : Nat), firstIdxFrom k steps i = some j → i ≤ j := by
  induction steps with
  | nil => intro i j h; simp [firstIdxFrom] at h
  | cons s rest ih =>
    intro i j h
    by_cases hs : s.kind = k
    · simp [firstIdxFrom, hs] at h; omega
    · simp only [firstIdxFrom, if_neg hs] at h
      have := ih (i + 1) j h
      omega

/-- The first index of a kind exists exactly when a step of that kind
occurs in the sequence. -/
theorem firstIdxFrom_isSome (k : StepKind) (steps : List Step) :
    ∀ i : Nat,
      (firstIdxFrom k steps i).isSome = steps.any (fun t => decide (t.kind = k)) := by
  induction steps with
  | nil => intro i; simp [firstIdxFrom]
  | cons s rest ih =>
    intro i
    by_cases hs : s.kind = k
    · simp [firstIdxFrom, hs]
    · simp [firstIdxFrom, hs, ih (i + 1)]

/-- A sequence with a step of kind `k` has a positive count of `k`. -/
theorem count_pos_of_any (k : StepKind) (steps : List Step)
    (h : steps.any (fun t => decide (t.kind = k)) = true) :
    1 ≤ countKind k steps := by
  induction steps with
  | nil => simp at h
  | cons s rest ih =>
    simp only [List.any_cons, Bool.or_eq_true, decide_eq_true_eq] at h
    by_cases hsk : s.kind = k
    · simp [countKind, hsk]
    · rcases h with hs | hrest
      · exact absurd hs hsk
      · have := ih hrest
        simp [countKind, hsk]
        omega

/-- A later-phase-after-earlier-phase pattern needs a step of the later
kind present. -/
theorem appearsAfterKind_count_left (k1 k2 : StepKind) (steps : List Step)
    (h : appearsAfterKind k1 k2 steps = true) : 1 ≤ countKind k1 steps := by
  induction steps with
  | nil => simp [appearsAfterKind] at h
  | cons s rest ih =>
    simp only [appearsAfterKind, Bool.or_eq_true, Bool.and_eq_true] at h
    by_cases hsk : s.kind = k1
    · simp [countKind, hsk]
    · rcases h with ⟨_, hany⟩ | hrec
      · have := count_pos_of_any k1 rest hany
        simp [countKind, hsk]
        omega
      · have := ih hrec
        simp [countKind, hsk]
        omega

/-- A later-phase-after-earlier-phase pattern needs a step of the earlier
kind present. -/
theorem appearsAfterKind_count_right (k1 k2 : StepKind) (steps : List Step)
    (h : appearsAfterKind k1 k2 steps = true) : 1 ≤ countKind k2 steps := by
  induction steps with
  | nil => simp [appearsAfterKind] at h
  | cons s rest ih =>
    simp only [appearsAfterKind, Bool.or_eq_true, Bool.and_eq_true,
      decide_eq_true_eq] at h
    by_cases hsk : s.kind = k2
    · simp [countKind, hsk]
    · rcases h with ⟨hs, _⟩ | hrec
      · exact absurd hs hsk
      · have := ih hrec
        simp [countKind, hsk]
        omega

/-- Under the no-duplicate assumption, the validator's index comparison for a
pair of kinds coincides with the later-kind-appears-after-earlier-kind
relation on the sequence. -/
theorem optGT_firstIdx_eq_appearsAfter (k1 k2 : StepKind) (hne : k1 ≠ k2)
    (steps : List Step) :
    ∀ i : Nat, countKind k1 steps ≤ 1 → countKind k2 steps ≤ 1 →
      optGT (firstIdxFrom k1 steps i) (firstIdxFrom k2 steps i) =
        appearsAfterKind k1 k2 steps := by
  induction steps with
  | nil => intro i _ _; simp [firstIdxFrom, optGT, appearsAfterKind]
  | cons s rest ih =>
    intro i h1 h2
    by_cases hs1 : s.kind = k1
    · have hs2 : s.kind ≠ k2 := by rw [hs1]; exact hne
      have h1' : countKind k1 rest = 0 := by
        simp [countKind, hs1] at h1; omega
      simp only [firstIdxFrom, if_pos hs1, if_neg hs2]
      have hlhs : optGT (some i) (firstIdxFrom k2 rest (i + 1)) = false := by
        cases hfi : firstIdxFrom k2 rest (i + 1) with
        | none => rfl
        | some j =>
          have hj := firstIdxFrom_ge k2 rest (i + 1) j hfi
          simp [optGT]
          omega
      rw [hlhs]
      have hrec : appearsAfterKind k1 k2 rest = false := by
        cases hx : appearsAfterKind k1 k2 rest
        · rfl
        · have := appearsAfterKind_count_left k1 k2 rest hx
          omega
      simp [appearsAfterKind, hs2, hrec]
    · by_cases hs2 : s.kind = k2
      · have h2' : countKind k2 rest = 0 := by
          simp [countKind, hs2] at h2; omega
        simp only [firstIdxFrom, if_neg hs1, if_pos hs2]
        have hrec : appearsAfterKind k1 k2 rest = false := by
          cases hx : appearsAfterKind k1 k2 rest
          · rfl
          · have := appearsAfterKind_count_right k1 k2 rest hx
            omega
        have hany := firstIdxFrom_isSome k1 rest (i + 1)
        cases hfi : firstIdxFrom k1 rest (i + 1) with
        | none =>
          rw [hfi] at hany
          simp [optGT, appearsAfterKind, hs2, hrec, ← hany]
        | some j =>
          rw [hfi] at hany
          have hj := firstIdxFrom_ge k1 rest (i + 1) j hfi
          simp [optGT, appearsAfterKind, hs2, hrec, ← hany]
          omega
      · have hc1 : countKind k1 (s :: rest) = countKind k1 rest := by
          simp [countKind, hs1]
        have hc2 : countKind k2 (s :: rest) = countKind k2 rest := by
          simp [countKind, hs2]
        rw [hc1] at h1; rw [hc2] at h2
        simp only [firstIdxFrom, if_neg hs1, if_neg hs2]
        rw [ih (i + 1) h1 h2]
        simp [appearsAfterKind, hs2]

/-- C2: for every sequence with at most one stage of each kind in which a
later-phase stage precedes an earlier-phase stage (Tokenizer after Tagger,
Tokenizer after Parser, or Tagger after Parser), validation fails — for every
document and regardless of intervening stages — with the ordering error
naming both kinds of the first violated pair in the validator's check order. -/
theorem C2_misordered_stages (steps : List Step) (doc : TextDocument)
    (h1 : countKind .tokenizer steps ≤ 1)
    (h2 : countKind .tagger steps ≤ 1)
    (h3 : countKind .parser steps ≤ 1)
    (hmis : appearsAfterKind .tokenizer .tagger steps = true
      ∨ appearsAfterKind .tokenizer .parser steps = true
      ∨ appearsAfterKind .tagger .parser steps = true) :
    validate_pipeline steps doc =
      .error (if appearsAfterKind .tokenizer .tagger steps then ordTokTagExc
        else if appearsAfterKind .tokenizer .parser steps then ordTokParExc
        else ordTagParExc) := by
  cases steps with
  | nil => simp [appearsAfterKind] at hmis
  | cons first rest =>
    have hscan := scanSteps_no_dup (first :: rest) none none none 0
      (by simpa using h1) (by simpa using h2) (by simpa using h3)
    simp only [stOr] at hscan
    have hgg := optGT_firstIdx_eq_appearsAfter .tokenizer .tagger (by decide)
      (first :: rest) 0 h1 h2
    have hgp := optGT_firstIdx_eq_appearsAfter .tokenizer .parser (by decide)
      (first :: rest) 0 h1 h3
    have htp := optGT_firstIdx_eq_appearsAfter .tagger .parser (by decide)
      (first :: rest) 0 h2 h3
    simp only [validate_pipeline, hscan, hgg, hgp, htp]
    cases hA : appearsAfterKind .tokenizer .tagger (first :: rest) with
    | true => simp [hA]
    | false =>
      cases hB : appearsAfterKind .tokenizer .parser (first :: rest) with
      | true => simp [hA, hB]
      | false =>
        cases hC : appearsAfterKind .tagger .parser (first :: rest) with
        | true => simp [hA, hB, hC]
        | false => simp [hA, hB, hC] at hmis

theorem C2_misordered_stages_witness :
    countKind .tokenizer [tagStepA, tokStepA] ≤ 1
    ∧ countKind .tagger [tagStepA, tokStepA] ≤ 1
    ∧ countKind .parser [tagStepA, tokStepA] ≤ 1
    ∧ appearsAfterKind .tokenizer .tagger [tagStepA, tokStepA] = true
    ∧ validate_pipeline [tagStepA, tokStepA] (TextDocument.mkNew "x") =
        .error (if appearsAfterKind .tokenizer .tagger [tagStepA, tokStepA] then ordTokTagExc
          else if appearsAfterKind .tokenizer .parser [tagStepA, tokStepA] then ordTokParExc
          else ordTagParExc) :=
  ⟨by decide, by decide, by decide, by decide,
    C2_misordered_stages [tagStepA, tokStepA] (TextDocument.mkNew "x")
      (by decide) (by decide) (by decide) (Or.inl (by decide))⟩

end PipelineSpec
